import Mathlib

/-!
Verification of the ScholarHunt resume-extraction pipeline
(backend/utils/resumeParser.js).

Strings are modelled as lists of characters.  Each definition below is a
shallow embedding of the corresponding JavaScript function:

* collapseWs / trimStr  — the cleanup step  text.replace(/\s+/g, " ").trim()
* educationLevelOf, fieldsOf, countryOf, skillsOf, extractExperience —
  the sub-algorithms of extractWithRegex
* extractWithRegex      — the deterministic regex extraction engine
* normalizeLLMResponse  — the response-shape coercion shared by
  extractWithGemini and extractWithOpenAI (both bodies are identical)
* orchestrate / parseResumeSuccess — the provider cascade of parseResume
* handleParseError / safeDefaultResult — the catch handler of parseResume

The regular expressions of the source contain only literal alternations,
optional dots, character classes and greedy whitespace stars, so they are
expanded into explicit keyword lists and a hand-rolled leftmost matcher.
-/

namespace ScholarHunt

/-- Character-list view of a JavaScript string. -/
abbrev Str := List Char

/-- The apostrophe character, U+0027. -/
def apos : Char := Char.ofNat 39

/-- The en dash, U+2013, accepted by the date-range pattern. -/
def enDash : Char := Char.ofNat 8211

/-- The label Bachelor+apostrophe+s used throughout the source. -/
def bachelorsLabel : Str := "Bachelor".data ++ apos :: "s".data

/-- The label Master+apostrophe+s used by the education classifier. -/
def mastersLabel : Str := "Master".data ++ apos :: "s".data

/-- JavaScript whitespace class (the regex class backslash-s): space, tab,
LF, VT, FF, CR, NBSP, and the Unicode space separators used by String.trim. -/
def isSpaceChar (c : Char) : Bool :=
  let n := c.toNat
  n == 32 || n == 9 || n == 10 || n == 11 || n == 12 || n == 13 || n == 160 ||
  n == 5760 || (8192 ≤ n && n ≤ 8202) || n == 8232 || n == 8233 ||
  n == 8239 || n == 8287 || n == 12288 || n == 65279

/-- Lowercase view: textLower = text.toLowerCase() (ASCII case folding). -/
def strLower (s : Str) : Str := s.map Char.toLower

/-- Tests whether the first list is a prefix of the second. -/
def startsWith : Str → Str → Bool
  | [], _ => true
  | _ :: _, [] => false
  | a :: as, b :: bs => a == b && startsWith as bs

/-- Tests whether needle occurs as a contiguous substring of hay. -/
def occursIn (needle : Str) : Str → Bool
  | [] => needle.isEmpty
  | c :: rest => startsWith needle (c :: rest) || occursIn needle rest

/-- Embeds hay.includes(needle): substring containment. -/
def includesSub (hay needle : Str) : Bool := occursIn needle hay

/-- Embeds keywords.some(k means textLower.includes(k)). -/
def anyKeywordIn (tl : Str) (ks : List Str) : Bool :=
  ks.any (fun k => includesSub tl k)

/-- Alternatives of the regex ph backslash-dot-question d | doctorate | doctor of. -/
def phdPatterns : List Str :=
  ["phd".data, "ph.d".data, "doctorate".data, "doctor of".data]

/-- Alternatives of the master-level regex, optional dots expanded. -/
def masterPatterns : List Str :=
  ["master".data, "msc".data, "m.sc".data, "ms.c".data, "m.s.c".data,
   "ma.".data, "m.a.".data,
   "mba".data, "m.ba".data, "mb.a".data, "m.b.a".data]

/-- Alternatives of the bachelor-level regex, optional dots expanded. -/
def bachelorPatterns : List Str :=
  ["bachelor".data, "bsc".data, "b.sc".data, "bs.c".data, "b.s.c".data,
   "ba.".data, "b.a.".data, "beng".data, "b.eng".data]

/-- Alternatives of the high-school regex. -/
def highSchoolPatterns : List Str :=
  ["high school".data, "secondary school".data]

/-- textLower.match(re) is non-null iff some alternative occurs as a substring. -/
def matchesAny (tl : Str) (ps : List Str) : Bool :=
  ps.any (fun p => includesSub tl p)

/-- The education-level if-else chain of extractWithRegex. -/
def educationLevelOf (tl : Str) : Str :=
  if matchesAny tl phdPatterns then "PhD".data
  else if matchesAny tl masterPatterns then mastersLabel
  else if matchesAny tl bachelorPatterns then bachelorsLabel
  else if matchesAny tl highSchoolPatterns then "High School".data
  else bachelorsLabel

/-- The fieldKeywords object literal, in declaration order. -/
def fieldKeywords : List (Str × List Str) :=
  [ ("Computer Science".data,
     ["computer science".data, "software".data, "programming".data,
      "development".data, "software engineering".data,
      "information systems".data, "information technology".data,
      "cybersecurity".data, "cloud computing".data]),
    ("Engineering".data,
     ["engineering".data, "electrical".data, "mechanical".data, "civil".data,
      "chemical".data, "biomedical".data, "environmental".data]),
    ("Data Science".data,
     ["data science".data, "data analytics".data, "big data".data,
      "machine learning".data, "artificial intelligence".data, "ai".data]),
    ("Business".data,
     ["business".data, "management".data, "finance".data, "marketing".data,
      "mba".data, "economics".data, "accounting".data]),
    ("Medicine".data,
     ["medicine".data, "medical".data, "health".data, "nursing".data,
      "pharmacy".data, "public health".data]),
    ("Science".data,
     ["physics".data, "chemistry".data, "biology".data, "science".data,
      "mathematics".data, "statistics".data]),
    ("Arts".data,
     ["arts".data, "history".data, "literature".data, "english".data,
      "sociology".data, "psychology".data, "philosophy".data]),
    ("Law".data,
     ["law".data, "legal".data, "criminology".data]) ]

/-- The field-of-study loop: push each matching category, declaration order. -/
def fieldsOf (tl : Str) : List Str :=
  (fieldKeywords.filter (fun p => anyKeywordIn tl p.2)).map (fun p => p.1)

/-- The countries object literal, in declaration order. -/
def countriesList : List (Str × List Str) :=
  [ ("USA".data,
     ["united states".data, "usa".data, "u.s.a".data, "new york".data,
      "california".data, "texas".data, "florida".data, "washington".data,
      "chicago".data]),
    ("UK".data,
     ["united kingdom".data, "uk".data, "london".data, "england".data,
      "scotland".data, "wales".data, "manchester".data, "birmingham".data]),
    ("Canada".data,
     ["canada".data, "toronto".data, "vancouver".data, "montreal".data,
      "ontario".data, "quebec".data]),
    ("Australia".data,
     ["australia".data, "sydney".data, "melbourne".data, "brisbane".data,
      "perth".data]),
    ("India".data,
     ["india".data, "delhi".data, "mumbai".data, "bangalore".data,
      "hyderabad".data, "chennai".data, "pune".data, "kolkata".data]),
    ("Nigeria".data,
     ["nigeria".data, "lagos".data, "abuja".data, "kano".data,
      "ibadan".data]),
    ("Pakistan".data,
     ["pakistan".data, "lahore".data, "karachi".data, "islamabad".data,
      "faisalabad".data]),
    ("China".data,
     ["china".data, "beijing".data, "shanghai".data, "shenzhen".data,
      "guangzhou".data]),
    ("Germany".data,
     ["germany".data, "berlin".data, "munich".data, "hamburg".data,
      "frankfurt".data]),
    ("Netherlands".data,
     ["netherlands".data, "amsterdam".data, "rotterdam".data,
      "utrecht".data]),
    ("France".data,
     ["france".data, "paris".data, "lyon".data, "marseille".data]),
    ("Sweden".data,
     ["sweden".data, "stockholm".data, "gothenburg".data]),
    ("Switzerland".data,
     ["switzerland".data, "zurich".data, "geneva".data, "basel".data]),
    ("Japan".data,
     ["japan".data, "tokyo".data, "osaka".data, "kyoto".data]),
    ("Singapore".data, ["singapore".data]),
    ("New Zealand".data,
     ["new zealand".data, "auckland".data, "wellington".data]),
    ("Ireland".data, ["ireland".data, "dublin".data, "cork".data]),
    ("Denmark".data, ["denmark".data, "copenhagen".data]),
    ("Norway".data, ["norway".data, "oslo".data]),
    ("Finland".data, ["finland".data, "helsinki".data]),
    ("Austria".data, ["austria".data, "vienna".data]),
    ("Belgium".data, ["belgium".data, "brussels".data, "antwerp".data]),
    ("Italy".data, ["italy".data, "rome".data, "milan".data, "naples".data]),
    ("Spain".data,
     ["spain".data, "madrid".data, "barcelona".data, "seville".data]) ]

/-- The country loop: first matching country wins, then break. -/
def countryOf (tl : Str) : Str :=
  match countriesList.find? (fun p => anyKeywordIn tl p.2) with
  | some p => p.1
  | none => "International".data

/-- The commonSkills vocabulary, in declaration order. -/
def commonSkills : List Str :=
  ["javascript".data, "python".data, "java".data, "c++".data, "react".data,
   "node.js".data, "angular".data, "vue".data, "html".data, "css".data,
   "sql".data, "nosql".data, "mongodb".data, "aws".data, "docker".data,
   "kubernetes".data, "git".data, "agile".data, "scrum".data,
   "communication".data, "leadership".data, "problem solving".data,
   "project management".data, "data analysis".data,
   "machine learning".data, "ai".data, "devops".data]

/-- skill.charAt(0).toUpperCase() + skill.slice(1). -/
def capFirst : Str → Str
  | [] => []
  | c :: cs => c.toUpper :: cs

/-- The skills loop of extractWithRegex. -/
def skillsOf (tl : Str) : List Str :=
  (commonSkills.filter (fun s => includesSub tl s)).map capFirst

/-- Matches the alternation (present|four digits) at the head of a string,
case-insensitively, returning the number of characters consumed. -/
def matchRangeEnd (s : Str) : Option Nat :=
  match s with
  | c1 :: c2 :: c3 :: c4 :: c5 :: c6 :: c7 :: _ =>
    if [c1, c2, c3, c4, c5, c6, c7].map Char.toLower = "present".data then some 7
    else if c1.isDigit && c2.isDigit && c3.isDigit && c4.isDigit then some 4
    else none
  | c1 :: c2 :: c3 :: c4 :: _ =>
    if c1.isDigit && c2.isDigit && c3.isDigit && c4.isDigit then some 4
    else none
  | _ => none

/-- Attempts the date-range pattern (four digits, star of whitespace, dash or
en dash, star of whitespace, then present or four digits) at the head of the
string; returns the length of the matched prefix.  The whitespace stars are
greedy, and since a dash is not whitespace no backtracking can occur, so
consuming the maximal whitespace run is exact. -/
def matchDateAt (s : Str) : Option Nat :=
  match s with
  | c1 :: c2 :: c3 :: c4 :: rest =>
    if c1.isDigit && c2.isDigit && c3.isDigit && c4.isDigit then
      let ws1 := rest.takeWhile isSpaceChar
      match rest.dropWhile isSpaceChar with
      | d :: rest2 =>
        if d == '-' || d == enDash then
          let ws2 := rest2.takeWhile isSpaceChar
          match matchRangeEnd (rest2.dropWhile isSpaceChar) with
          | some k => some (4 + ws1.length + 1 + ws2.length + k)
          | none => none
        else none
      | [] => none
    else none
  | _ => none

/-- line.match(re)[0]: the leftmost match of the date-range pattern,
found by trying each start position left to right. -/
def findDateMatch : Str → Option Str
  | [] => none
  | c :: rest =>
    match matchDateAt (c :: rest) with
    | some n => some ((c :: rest).take n)
    | none => findDateMatch rest

/-- line.replace(re, empty) with the global flag: removes every match,
resuming the scan right after each removed match.  A successful matchDateAt
always consumes at least nine characters, so dropping n minus 1 of rest
is exactly dropping n characters of the whole line. -/
def removeDateMatches : Str → Str
  | [] => []
  | c :: rest =>
    match matchDateAt (c :: rest) with
    | some n => removeDateMatches (rest.drop (n - 1))
    | none => c :: removeDateMatches rest
termination_by s => s.length
decreasing_by
  · simp only [List.length_drop, List.length_cons]
    omega
  · simp only [List.length_cons]
    omega

/-- String.trim: strip leading and trailing whitespace. -/
def trimStr (s : Str) : Str :=
  ((s.dropWhile isSpaceChar).reverse.dropWhile isSpaceChar).reverse

/-- text.split(newline). -/
def splitLines : Str → List Str
  | [] => [[]]
  | c :: rest =>
    if c == '\n' then [] :: splitLines rest
    else
      match splitLines rest with
      | l :: ls => (c :: l) :: ls
      | [] => [[c]]

/-- One entry of the experience array produced by the regex engine. -/
structure ExperienceEntry where
  company : Str
  position : Str
  duration : Str
  description : Str
deriving DecidableEq

/-- The sentinel position string of the regex engine. -/
def unknownPosition : Str := "Unknown Position".data

/-- The sentinel company string of the regex engine. -/
def unknownCompany : Str := "Unknown Company".data

/-- Builds the experience entry pushed for a matching line: the company is
the line with all date matches removed if that leaves more than three
characters, else the trimmed previous line if longer than three characters,
else the sentinel; truncated to fifty characters. -/
def mkExperienceEntry (prev : Option Str) (line dur : Str) : ExperienceEntry :=
  let cleanLine := trimStr (removeDateMatches line)
  let company :=
    if 3 < cleanLine.length then cleanLine
    else
      match prev with
      | some p => if 3 < (trimStr p).length then trimStr p else unknownCompany
      | none => unknownCompany
  { company := company.take 50
  , position := unknownPosition
  , duration := dur
  , description := "Extracted from resume".data }

/-- The experience for-loop: scan lines in order, push an entry per line with
a date-range match, stop once three entries were pushed. -/
def experienceLoop : Option Str → List Str → List ExperienceEntry → List ExperienceEntry
  | _, [], acc => acc.reverse
  | prev, line :: rest, acc =>
    match findDateMatch line with
    | none => experienceLoop (some line) rest acc
    | some dur =>
      let acc2 := mkExperienceEntry prev line dur :: acc
      if 3 ≤ acc2.length then acc2.reverse
      else experienceLoop (some line) rest acc2

/-- Experience extraction over the line-split text. -/
def extractExperience (lines : List Str) : List ExperienceEntry :=
  experienceLoop none lines []

/-- The output record of the regex extraction engine. -/
structure ExtractionResult where
  educationLevel : Str
  fieldOfStudy : List Str
  country : Str
  skills : List Str
  experience : List ExperienceEntry
  confidence : Int
deriving DecidableEq

/-- The extractWithRegex function of resumeParser.js. -/
def extractWithRegex (text : Str) : ExtractionResult :=
  let textLower := strLower text
  let educationLevel := educationLevelOf textLower
  let fields := fieldsOf textLower
  let country := countryOf textLower
  let skills := skillsOf textLower
  let experience := extractExperience (splitLines text)
  let confidence : Int := 50
    + (if educationLevel ≠ bachelorsLabel then 10 else 0)
    + (if 0 < fields.length then 20 else 0)
    + (if country ≠ "International".data then 10 else 0)
    + (if 0 < skills.length then 10 else 0)
  { educationLevel := educationLevel
  , fieldOfStudy := if 0 < fields.length then fields.take 2 else ["General".data]
  , country := country
  , skills := skills
  , experience := experience
  , confidence := confidence }

/-- An untyped JavaScript/JSON value, as far as the normalization step
inspects it: undefined, null, boolean, number, string, or array. -/
inductive JVal where
  | jundef
  | jnull
  | jbool (b : Bool)
  | jnum (n : Int)
  | jstr (s : Str)
  | jarr (xs : List JVal)

/-- JavaScript truthiness of a JVal. -/
def truthy : JVal → Bool
  | .jundef => false
  | .jnull => false
  | .jbool b => b
  | .jnum n => n != 0
  | .jstr s => !s.isEmpty
  | .jarr _ => true

/-- v || d in JavaScript: v when truthy, else d. -/
def jsOr (v d : JVal) : JVal := if truthy v then v else d

/-- The seven fields read off the JSON object parsed from a provider
response (parsed.education, parsed.educationLevel, and so on); a field
absent from the object reads as jundef. -/
structure ParsedJson where
  education : JVal
  educationLevel : JVal
  fieldOfStudy : JVal
  country : JVal
  skills : JVal
  experience : JVal
  confidence : JVal

/-- The object literal returned on the provider path after normalization. -/
structure LLMResult where
  education : List JVal
  educationLevel : JVal
  fieldOfStudy : List JVal
  country : JVal
  skills : List JVal
  experience : List JVal
  confidence : JVal

/-- Array.isArray(v) followed by using v: the element list when v is an
array, else the given fallback list. -/
def arrOrElse (v : JVal) (fallback : List JVal) : List JVal :=
  match v with
  | .jarr xs => xs
  | _ => fallback

/-- The response normalization performed identically by extractWithGemini
and extractWithOpenAI on the JSON-parsed provider response. -/
def normalizeLLMResponse (parsed : ParsedJson) : LLMResult :=
  { education := arrOrElse parsed.education []
  , educationLevel := jsOr parsed.educationLevel (.jstr bachelorsLabel)
  , fieldOfStudy :=
      arrOrElse parsed.fieldOfStudy [jsOr parsed.fieldOfStudy (.jstr "General".data)]
  , country := jsOr parsed.country (.jstr "International".data)
  , skills := arrOrElse parsed.skills []
  , experience := arrOrElse parsed.experience []
  , confidence := jsOr parsed.confidence (.jnum 70) }

/-- One pass of the whitespace-collapsing scan: the flag records whether the
previous character was whitespace, so each maximal whitespace run becomes a
single space. -/
def collapseWsAux : Bool → Str → Str
  | _, [] => []
  | prevSpace, c :: rest =>
    if isSpaceChar c then
      if prevSpace then collapseWsAux true rest
      else ' ' :: collapseWsAux true rest
    else c :: collapseWsAux false rest

/-- text.replace(whitespace-run regex, single space), global. -/
def collapseWs (s : Str) : Str := collapseWsAux false s

/-- The cleanup step of parseResume: collapse whitespace runs, then trim. -/
def cleanText (s : Str) : Str := trimStr (collapseWs s)

/-- The extraction data held by parseResume after the provider cascade:
either a normalized provider response or the regex engine output. -/
inductive ExtractedData where
  | llm (r : LLMResult)
  | regex (r : ExtractionResult)

/-- The value parseResume returns on its success path: a preview of the
cleaned text plus the spread extraction data. -/
structure ParseSuccess where
  textPreview : Str
  extracted : ExtractedData

/-- The provider cascade of parseResume.  tryOpenAI and tryGemini return
null both when the client is unconfigured and when every model variant of
the call failed, so each attempt is modelled by an Option: none covers
"not configured" and "all variants failed" alike. -/
def orchestrate (preferOpenAI : Bool)
    (openaiResult geminiResult : Option LLMResult) (text : Str) : ExtractedData :=
  if preferOpenAI then
    match openaiResult with
    | some r => .llm r
    | none =>
      match geminiResult with
      | some r => .llm r
      | none => .regex (extractWithRegex text)
  else
    match geminiResult with
    | some r => .llm r
    | none =>
      match openaiResult with
      | some r => .llm r
      | none => .regex (extractWithRegex text)

/-- The success path of parseResume after text extraction: clean the text,
run the provider cascade, and attach the first 2000 characters as preview. -/
def parseResumeSuccess (preferOpenAI : Bool)
    (openaiResult geminiResult : Option LLMResult) (rawText : Str) : ParseSuccess :=
  let text := cleanText rawText
  { textPreview := text.take 2000
  , extracted := orchestrate preferOpenAI openaiResult geminiResult text }

/-- The object returned by the catch handler of parseResume for an
unclassified failure. -/
structure FallbackResult where
  text : Str
  educationLevel : Str
  fieldOfStudy : List Str
  country : Str
  skills : List Str
  experience : List ExperienceEntry
  confidence : Int
  fallbackFlag : Bool
deriving DecidableEq

/-- The fixed safe-default result of the catch handler (the source marks it
with an underscore-fallback field set to true). -/
def safeDefaultResult : FallbackResult :=
  { text := []
  , educationLevel := bachelorsLabel
  , fieldOfStudy := ["General".data]
  , country := "International".data
  , skills := []
  , experience := []
  , confidence := 30
  , fallbackFlag := true }

/-- Whether an error message is recognized by the catch handler of
parseResume as one of the typed failures it rethrows. -/
def recognizedFailure (msg : Str) : Bool :=
  includesSub msg "Unsupported file format".data ||
  includesSub msg "File not found".data ||
  (includesSub msg "empty".data || includesSub msg "no extractable text".data) ||
  includesSub msg "PDF parsing failed".data ||
  includesSub msg "DOCX parsing failed".data

/-- The catch handler of parseResume: rethrow the recognized typed failures
with a user-facing message, and convert anything else into the safe
default result. -/
def handleParseError (msg : Str) : Except Str FallbackResult :=
  if includesSub msg "Unsupported file format".data then
    .error "Unsupported file format. Please upload a PDF or DOCX file.".data
  else if includesSub msg "File not found".data then
    .error "The uploaded file could not be found. Please try uploading again.".data
  else if includesSub msg "empty".data || includesSub msg "no extractable text".data then
    .error "The file appears to be empty or contains no readable text. Please upload a valid resume.".data
  else if includesSub msg "PDF parsing failed".data then
    .error "Failed to parse PDF file. The file may be corrupted or password-protected.".data
  else if includesSub msg "DOCX parsing failed".data then
    .error "Failed to parse DOCX file. The file may be corrupted or in an unsupported format.".data
  else
    .ok safeDefaultResult

/-! Helper lemmas: the fields of the record built by extractWithRegex. -/

theorem extractWithRegex_educationLevel (t : Str) :
    (extractWithRegex t).educationLevel = educationLevelOf (strLower t) := rfl

theorem extractWithRegex_fieldOfStudy (t : Str) :
    (extractWithRegex t).fieldOfStudy =
      (if 0 < (fieldsOf (strLower t)).length
       then (fieldsOf (strLower t)).take 2 else ["General".data]) := rfl

theorem extractWithRegex_country (t : Str) :
    (extractWithRegex t).country = countryOf (strLower t) := rfl

theorem extractWithRegex_skills (t : Str) :
    (extractWithRegex t).skills = skillsOf (strLower t) := rfl

theorem extractWithRegex_experience (t : Str) :
    (extractWithRegex t).experience = extractExperience (splitLines t) := rfl

theorem extractWithRegex_confidence (t : Str) :
    (extractWithRegex t).confidence = 50
      + (if educationLevelOf (strLower t) ≠ bachelorsLabel then (10 : Int) else 0)
      + (if 0 < (fieldsOf (strLower t)).length then (20 : Int) else 0)
      + (if countryOf (strLower t) ≠ "International".data then (10 : Int) else 0)
      + (if 0 < (skillsOf (strLower t)).length then (10 : Int) else 0) := rfl

theorem extractWithRegex_confidence_bounds (t : Str) :
    50 ≤ (extractWithRegex t).confidence ∧ (extractWithRegex t).confidence ≤ 100 := by
  rw [extractWithRegex_confidence]
  split_ifs <;> omega

/-- Whether a JVal is an integer inside the interval from 0 to 100. -/
def confInRange : JVal → Bool
  | .jnum n => decide (0 ≤ n ∧ n ≤ 100)
  | _ => false

/-- A provider JSON response whose confidence field is the number 150. -/
def overConfidentJson : ParsedJson :=
  { education := .jundef
  , educationLevel := .jundef
  , fieldOfStudy := .jundef
  , country := .jundef
  , skills := .jundef
  , experience := .jundef
  , confidence := .jnum 150 }

/-- Claim C1, counterexample: the value taken from a provider JSON response
is not clamped; a response carrying confidence 150 is normalized to a result
whose confidence is still 150, outside the interval from 0 to 100. -/
theorem c1_confidence_counterexample :
    (normalizeLLMResponse overConfidentJson).confidence = JVal.jnum 150
    ∧ confInRange (normalizeLLMResponse overConfidentJson).confidence = false :=
  ⟨rfl, rfl⟩

/-- Claim C1 (amended): the regex path always yields a confidence between
50 and 100, hence between 0 and 100, and the safe-default path yields 30;
but the provider path applies no clamping: any truthy confidence value of
the provider JSON is returned unchanged, and a falsy one becomes 70. -/
theorem c1_confidence_amended :
    (∀ t : Str,
      0 ≤ (extractWithRegex t).confidence ∧ (extractWithRegex t).confidence ≤ 100)
    ∧ safeDefaultResult.confidence = 30
    ∧ (∀ p : ParsedJson, truthy p.confidence = true →
        (normalizeLLMResponse p).confidence = p.confidence)
    ∧ (∀ p : ParsedJson, truthy p.confidence = false →
        (normalizeLLMResponse p).confidence = .jnum 70) := by
  refine ⟨fun t => ?_, rfl, fun p hp => ?_, fun p hp => ?_⟩
  · have h := extractWithRegex_confidence_bounds t
    omega
  · simp [normalizeLLMResponse, jsOr, hp]
  · simp [normalizeLLMResponse, jsOr, hp]

/-- Claim C1, witness: the amended theorem applied at a one-character text
and at the concrete over-confident provider response. -/
theorem c1_confidence_witness :
    (0 ≤ (extractWithRegex "x".data).confidence
      ∧ (extractWithRegex "x".data).confidence ≤ 100)
    ∧ (normalizeLLMResponse overConfidentJson).confidence = overConfidentJson.confidence :=
  ⟨c1_confidence_amended.1 "x".data,
   c1_confidence_amended.2.2.1 overConfidentJson (by decide)⟩

/-- A provider JSON response whose skills field is the scalar string Python. -/
def scalarSkillsJson : ParsedJson :=
  { education := .jundef
  , educationLevel := .jundef
  , fieldOfStudy := .jundef
  , country := .jundef
  , skills := .jstr "Python".data
  , experience := .jundef
  , confidence := .jundef }

/-- Claim C2, counterexample: a skills field that comes back as a scalar
string is not coerced into a single-element array; the normalization
replaces it by the empty list. -/
theorem c2_normalization_counterexample :
    (normalizeLLMResponse scalarSkillsJson).skills = []
    ∧ (normalizeLLMResponse scalarSkillsJson).skills ≠ [JVal.jstr "Python".data] :=
  ⟨rfl, fun h => by
    have h0 : ([] : List JVal) = [JVal.jstr "Python".data] := h
    exact List.noConfusion h0⟩

/-- Claim C2 (amended): only the fieldOfStudy field is coerced from a scalar
to a single-element array (a falsy scalar becoming the string General);
a non-array skills, experience or education value is replaced by the empty
list; a missing educationLevel defaults to the bachelor label, a missing
country to International, a missing confidence to 70, missing skills,
experience and education arrays to empty lists, and a missing fieldOfStudy
to the one-element list holding the string General. -/
theorem c2_normalization_amended :
    ∀ p : ParsedJson,
      (∀ s : Str, p.fieldOfStudy = .jstr s → s ≠ [] →
        (normalizeLLMResponse p).fieldOfStudy = [.jstr s]) ∧
      (∀ s : Str, p.skills = .jstr s → (normalizeLLMResponse p).skills = []) ∧
      (∀ s : Str, p.experience = .jstr s → (normalizeLLMResponse p).experience = []) ∧
      (∀ s : Str, p.education = .jstr s → (normalizeLLMResponse p).education = []) ∧
      (p.educationLevel = .jundef →
        (normalizeLLMResponse p).educationLevel = .jstr bachelorsLabel) ∧
      (p.country = .jundef →
        (normalizeLLMResponse p).country = .jstr "International".data) ∧
      (p.confidence = .jundef → (normalizeLLMResponse p).confidence = .jnum 70) ∧
      (p.skills = .jundef → (normalizeLLMResponse p).skills = []) ∧
      (p.experience = .jundef → (normalizeLLMResponse p).experience = []) ∧
      (p.education = .jundef → (normalizeLLMResponse p).education = []) ∧
      (p.fieldOfStudy = .jundef →
        (normalizeLLMResponse p).fieldOfStudy = [.jstr "General".data]) := by
  intro p
  refine ⟨fun s hs hne => ?_, fun s hs => ?_, fun s hs => ?_, fun s hs => ?_,
    fun h => ?_, fun h => ?_, fun h => ?_, fun h => ?_, fun h => ?_, fun h => ?_,
    fun h => ?_⟩
  · have hemp : s.isEmpty = false := by
      cases s with
      | nil => exact absurd rfl hne
      | cons a as => rfl
    simp [normalizeLLMResponse, arrOrElse, jsOr, truthy, hs, hemp]
  · simp [normalizeLLMResponse, arrOrElse, hs]
  · simp [normalizeLLMResponse, arrOrElse, hs]
  · simp [normalizeLLMResponse, arrOrElse, hs]
  · simp [normalizeLLMResponse, jsOr, truthy, h]
  · simp [normalizeLLMResponse, jsOr, truthy, h]
  · simp [normalizeLLMResponse, jsOr, truthy, h]
  · simp [normalizeLLMResponse, arrOrElse, h]
  · simp [normalizeLLMResponse, arrOrElse, h]
  · simp [normalizeLLMResponse, arrOrElse, h]
  · simp [normalizeLLMResponse, arrOrElse, jsOr, truthy, h]

/-- Claim C2, witness: the amended theorem applied at the concrete response
whose skills field is the scalar string Python and whose other fields are
missing. -/
theorem c2_normalization_witness :
    (normalizeLLMResponse scalarSkillsJson).skills = []
    ∧ (normalizeLLMResponse scalarSkillsJson).confidence = .jnum 70
    ∧ (normalizeLLMResponse scalarSkillsJson).fieldOfStudy = [.jstr "General".data] :=
  ⟨(c2_normalization_amended scalarSkillsJson).2.1 "Python".data rfl,
   (c2_normalization_amended scalarSkillsJson).2.2.2.2.2.2.1 rfl,
   (c2_normalization_amended scalarSkillsJson).2.2.2.2.2.2.2.2.2.2 rfl⟩

/-- Claim C3 (confirmed): the education level is resolved by the precedence
order PhD, then the master label, then the bachelor label, then High School,
first match winning; a text matching both a bachelor keyword and a phd
keyword classifies as PhD and never as the bachelor label, and a text
matching no pattern defaults to the bachelor label. -/
theorem c3_education_precedence :
    ∀ t : Str,
      (matchesAny (strLower t) phdPatterns = true →
        (extractWithRegex t).educationLevel = "PhD".data) ∧
      (matchesAny (strLower t) phdPatterns = true →
        matchesAny (strLower t) bachelorPatterns = true →
        (extractWithRegex t).educationLevel = "PhD".data ∧
        (extractWithRegex t).educationLevel ≠ bachelorsLabel) ∧
      (matchesAny (strLower t) phdPatterns = false →
        matchesAny (strLower t) masterPatterns = true →
        (extractWithRegex t).educationLevel = mastersLabel) ∧
      (matchesAny (strLower t) phdPatterns = false →
        matchesAny (strLower t) masterPatterns = false →
        matchesAny (strLower t) bachelorPatterns = true →
        (extractWithRegex t).educationLevel = bachelorsLabel) ∧
      (matchesAny (strLower t) phdPatterns = false →
        matchesAny (strLower t) masterPatterns = false →
        matchesAny (strLower t) bachelorPatterns = false →
        matchesAny (strLower t) highSchoolPatterns = true →
        (extractWithRegex t).educationLevel = "High School".data) ∧
      (matchesAny (strLower t) phdPatterns = false →
        matchesAny (strLower t) masterPatterns = false →
        matchesAny (strLower t) bachelorPatterns = false →
        matchesAny (strLower t) highSchoolPatterns = false →
        (extractWithRegex t).educationLevel = bachelorsLabel) := by
  intro t
  rw [extractWithRegex_educationLevel]
  refine ⟨fun h1 => ?_, fun h1 h2 => ?_, fun h1 h2 => ?_, fun h1 h2 h3 => ?_,
    fun h1 h2 h3 h4 => ?_, fun h1 h2 h3 h4 => ?_⟩
  · simp [educationLevelOf, h1]
  · constructor
    · simp [educationLevelOf, h1]
    · simp only [educationLevelOf, h1, if_true]
      decide
  · simp [educationLevelOf, h1, h2]
  · simp [educationLevelOf, h1, h2, h3]
  · simp [educationLevelOf, h1, h2, h3, h4]
  · simp [educationLevelOf, h1, h2, h3, h4]

/-- Claim C3, witness: a text whose lowercase view matches both a bachelor
keyword and a phd keyword classifies as PhD. -/
theorem c3_education_precedence_witness :
    (extractWithRegex "completed a Bachelor of Science, later a PhD".data).educationLevel
      = "PhD".data
    ∧ (extractWithRegex "completed a Bachelor of Science, later a PhD".data).educationLevel
      ≠ bachelorsLabel :=
  (c3_education_precedence "completed a Bachelor of Science, later a PhD".data).2.1
    (by decide) (by decide)

theorem general_not_mem_fieldsOf (tl : Str) : "General".data ∉ fieldsOf tl := by
  intro hmem
  unfold fieldsOf at hmem
  rw [List.mem_map] at hmem
  obtain ⟨p, hp, hfst⟩ := hmem
  have hp' : p ∈ fieldKeywords := List.mem_of_mem_filter hp
  unfold fieldKeywords at hp'
  simp only [List.mem_cons, List.not_mem_nil, or_false] at hp'
  rcases hp' with rfl | rfl | rfl | rfl | rfl | rfl | rfl | rfl <;>
    exact absurd hfst (by decide)

/-- A provider JSON response whose fieldOfStudy is the empty array. -/
def emptyFieldJson : ParsedJson :=
  { education := .jundef
  , educationLevel := .jundef
  , fieldOfStudy := .jarr []
  , country := .jundef
  , skills := .jundef
  , experience := .jundef
  , confidence := .jundef }

/-- Claim C4, counterexample: on the provider path an array fieldOfStudy is
passed through unchanged, so a provider response carrying an empty array
yields a result whose fieldOfStudy has length zero, not at least one. -/
theorem c4_fieldOfStudy_counterexample :
    (normalizeLLMResponse emptyFieldJson).fieldOfStudy = []
    ∧ ¬ 1 ≤ (normalizeLLMResponse emptyFieldJson).fieldOfStudy.length :=
  ⟨rfl, by decide⟩

/-- Claim C4 (amended): on the regex path the returned fieldOfStudy has
length between one and two, equals the one-element list General exactly when
no keyword category matches, and otherwise is the first two matching
categories in declaration order; on the provider path an array fieldOfStudy
from the response is passed through without any length adjustment. -/
theorem c4_fieldOfStudy_amended :
    (∀ t : Str,
      1 ≤ (extractWithRegex t).fieldOfStudy.length ∧
      (extractWithRegex t).fieldOfStudy.length ≤ 2 ∧
      ((extractWithRegex t).fieldOfStudy = ["General".data] ↔
        fieldsOf (strLower t) = []) ∧
      (fieldsOf (strLower t) ≠ [] →
        (extractWithRegex t).fieldOfStudy = (fieldsOf (strLower t)).take 2))
    ∧ (∀ (p : ParsedJson) (xs : List JVal), p.fieldOfStudy = .jarr xs →
        (normalizeLLMResponse p).fieldOfStudy = xs) := by
  constructor
  · intro t
    rw [extractWithRegex_fieldOfStudy]
    by_cases hfs : fieldsOf (strLower t) = []
    · rw [hfs]
      simp
    · have hpos : 0 < (fieldsOf (strLower t)).length := List.length_pos.mpr hfs
      rw [if_pos hpos]
      have hlen : ((fieldsOf (strLower t)).take 2).length =
          min 2 (fieldsOf (strLower t)).length := List.length_take 2 _
      refine ⟨by omega, by omega, ?_, fun _ => rfl⟩
      constructor
      · intro heq
        exfalso
        have hmem : "General".data ∈ (fieldsOf (strLower t)).take 2 := by
          rw [heq]
          exact List.mem_singleton_self _
        exact general_not_mem_fieldsOf (strLower t) (List.take_subset 2 _ hmem)
      · intro h
        exact absurd h hfs
  · intro p xs hp
    simp [normalizeLLMResponse, arrOrElse, hp]

/-- Claim C4, witness: the amended theorem applied at a text matching two
categories and at the concrete empty-array provider response. -/
theorem c4_fieldOfStudy_witness :
    1 ≤ (extractWithRegex "software and biology".data).fieldOfStudy.length
    ∧ (extractWithRegex "software and biology".data).fieldOfStudy.length ≤ 2
    ∧ (normalizeLLMResponse emptyFieldJson).fieldOfStudy = [] :=
  ⟨(c4_fieldOfStudy_amended.1 "software and biology".data).1,
   (c4_fieldOfStudy_amended.1 "software and biology".data).2.1,
   c4_fieldOfStudy_amended.2 emptyFieldJson [] rfl⟩

theorem find_first_of_hits {α : Type} (p : α → Bool) :
    ∀ (l : List α) (i : Nat) (hi : i < l.length),
      p (l.get ⟨i, hi⟩) = true →
      (∀ (j : Nat) (hj : j < l.length), j < i → p (l.get ⟨j, hj⟩) = false) →
      l.find? p = some (l.get ⟨i, hi⟩)
  | a :: as, 0, _, hp, _ => List.find?_cons_of_pos as hp
  | a :: as, i + 1, hi, hp, hlt => by
    have h0 : p a = false := hlt 0 (Nat.succ_pos _) (Nat.succ_pos i)
    have ih := find_first_of_hits p as i (Nat.lt_of_succ_lt_succ hi) hp
      (fun j hj hji => hlt (j + 1) (Nat.succ_lt_succ hj) (Nat.succ_lt_succ hji))
    rw [List.find?_cons_of_neg as (by simp [h0])]
    exact ih

/-- Claim C5 (confirmed): the country output of the regex engine is either
one of the declared country labels or exactly International; if the keyword
list at declaration position i matches while every earlier one does not,
the output is the label at position i (first match wins); if no keyword
list matches, the output is International; and since the label USA comes
first in declaration order, any text containing new york yields USA. -/
theorem c5_country :
    ∀ t : Str,
      ((extractWithRegex t).country = "International".data ∨
        (extractWithRegex t).country ∈ countriesList.map (fun p => p.1)) ∧
      (∀ (i : Nat) (hi : i < countriesList.length),
        anyKeywordIn (strLower t) (countriesList.get ⟨i, hi⟩).2 = true →
        (∀ (j : Nat) (hj : j < countriesList.length), j < i →
          anyKeywordIn (strLower t) (countriesList.get ⟨j, hj⟩).2 = false) →
        (extractWithRegex t).country = (countriesList.get ⟨i, hi⟩).1) ∧
      ((∀ p ∈ countriesList, anyKeywordIn (strLower t) p.2 = false) →
        (extractWithRegex t).country = "International".data) ∧
      (includesSub (strLower t) "new york".data = true →
        (extractWithRegex t).country = "USA".data) := by
  intro t
  have hfirst : ∀ (i : Nat) (hi : i < countriesList.length),
      anyKeywordIn (strLower t) (countriesList.get ⟨i, hi⟩).2 = true →
      (∀ (j : Nat) (hj : j < countriesList.length), j < i →
        anyKeywordIn (strLower t) (countriesList.get ⟨j, hj⟩).2 = false) →
      (extractWithRegex t).country = (countriesList.get ⟨i, hi⟩).1 := by
    intro i hi hhit hprev
    rw [extractWithRegex_country]
    unfold countryOf
    rw [find_first_of_hits (fun p => anyKeywordIn (strLower t) p.2)
      countriesList i hi hhit hprev]
  refine ⟨?_, hfirst, ?_, ?_⟩
  · rw [extractWithRegex_country]
    unfold countryOf
    cases h : countriesList.find? (fun p => anyKeywordIn (strLower t) p.2) with
    | none => exact Or.inl rfl
    | some q =>
      exact Or.inr (List.mem_map_of_mem _ (List.mem_of_find?_eq_some h))
  · intro hall
    rw [extractWithRegex_country]
    unfold countryOf
    rw [List.find?_eq_none.mpr (fun x hx => by simp [hall x hx])]
  · intro hny
    have husa : anyKeywordIn (strLower t)
        (countriesList.get ⟨0, by decide⟩).2 = true := by
      unfold anyKeywordIn
      rw [List.any_eq_true]
      exact ⟨"new york".data, by decide, hny⟩
    have := hfirst 0 (by decide) husa
      (fun j hj hji => absurd hji (Nat.not_lt_zero j))
    exact this

/-- Claim C5, witness: the theorem applied at a text containing New York,
whose country resolves to USA. -/
theorem c5_country_witness :
    (extractWithRegex "John Smith, 123 Main St, New York, NY".data).country
      = "USA".data :=
  (c5_country "John Smith, 123 Main St, New York, NY".data).2.2.2 (by decide)

/-- Claim C6 (confirmed): every emitted skill is a vocabulary token whose
lowercase form occurs in the lowercase view of the text, with its first
character upper-cased; every vocabulary token occurring in the lowercase
view is emitted in that capitalized form; the output order follows the
vocabulary declaration order (the skills list is a sublist of the
capitalized vocabulary); and a text containing javascript in any casing
produces the output token Javascript. -/
theorem c6_skills :
    ∀ t : Str,
      (∀ s ∈ (extractWithRegex t).skills,
        ∃ v ∈ commonSkills, includesSub (strLower t) v = true ∧ s = capFirst v) ∧
      (∀ v ∈ commonSkills, includesSub (strLower t) v = true →
        capFirst v ∈ (extractWithRegex t).skills) ∧
      List.Sublist (extractWithRegex t).skills (commonSkills.map capFirst) ∧
      (includesSub (strLower t) "javascript".data = true →
        "Javascript".data ∈ (extractWithRegex t).skills) := by
  intro t
  have hall : ∀ v ∈ commonSkills, includesSub (strLower t) v = true →
      capFirst v ∈ (extractWithRegex t).skills := by
    intro v hv hsub
    rw [extractWithRegex_skills]
    unfold skillsOf
    exact List.mem_map_of_mem capFirst (List.mem_filter.mpr ⟨hv, hsub⟩)
  refine ⟨?_, hall, ?_, ?_⟩
  · intro s hs
    rw [extractWithRegex_skills] at hs
    unfold skillsOf at hs
    rw [List.mem_map] at hs
    obtain ⟨v, hv, rfl⟩ := hs
    rw [List.mem_filter] at hv
    exact ⟨v, hv.1, hv.2, rfl⟩
  · rw [extractWithRegex_skills]
    unfold skillsOf
    exact (List.filter_sublist _).map capFirst
  · intro h
    have := hall "javascript".data (by decide) h
    exact this

/-- Claim C6, witness: the theorem applied at a text containing JAVASCRIPT
in upper case, which yields the capitalized token Javascript. -/
theorem c6_skills_witness :
    "Javascript".data ∈ (extractWithRegex "Expert in JAVASCRIPT tooling".data).skills :=
  (c6_skills "Expert in JAVASCRIPT tooling".data).2.2.2 (by decide)

theorem mkExperienceEntry_duration (prev : Option Str) (line dur : Str) :
    (mkExperienceEntry prev line dur).duration = dur := rfl

theorem mkExperienceEntry_position (prev : Option Str) (line dur : Str) :
    (mkExperienceEntry prev line dur).position = unknownPosition := rfl

theorem experienceLoop_nil (prev : Option Str) (acc : List ExperienceEntry) :
    experienceLoop prev [] acc = acc.reverse := rfl

theorem experienceLoop_cons_none (prev : Option Str) (line : Str)
    (rest : List Str) (acc : List ExperienceEntry)
    (hm : findDateMatch line = none) :
    experienceLoop prev (line :: rest) acc = experienceLoop (some line) rest acc := by
  conv_lhs => unfold experienceLoop
  rw [hm]

theorem experienceLoop_cons_some (prev : Option Str) (line : Str)
    (rest : List Str) (acc : List ExperienceEntry) (dur : Str)
    (hm : findDateMatch line = some dur) :
    experienceLoop prev (line :: rest) acc =
      (if 3 ≤ (mkExperienceEntry prev line dur :: acc).length
       then (mkExperienceEntry prev line dur :: acc).reverse
       else experienceLoop (some line) rest (mkExperienceEntry prev line dur :: acc)) := by
  conv_lhs => unfold experienceLoop
  rw [hm]

theorem findDateMatch_substring :
    ∀ (l d : Str), findDateMatch l = some d → ∃ pre post, pre ++ d ++ post = l
  | [], _, h => absurd h (by simp [findDateMatch])
  | c :: rest, d, h => by
    unfold findDateMatch at h
    split at h
    next n hm =>
      cases h
      exact ⟨[], (c :: rest).drop n, by rw [List.nil_append, List.take_append_drop]⟩
    next hm =>
      obtain ⟨pre, post, hp⟩ := findDateMatch_substring rest d h
      exact ⟨c :: pre, post, by rw [List.cons_append, List.cons_append, hp]⟩

theorem experienceLoop_durations :
    ∀ (lines : List Str) (prev : Option Str) (acc : List ExperienceEntry),
      acc.length < 3 →
      (experienceLoop prev lines acc).map (fun e => e.duration) =
        (acc.reverse.map (fun e => e.duration))
          ++ ((lines.filterMap findDateMatch).take (3 - acc.length))
  | [], prev, acc, _ => by
    simp [experienceLoop_nil]
  | line :: rest, prev, acc, hlt => by
    cases hm : findDateMatch line with
    | none =>
      rw [experienceLoop_cons_none prev line rest acc hm,
        show (line :: rest).filterMap findDateMatch = rest.filterMap findDateMatch from
          by simp [List.filterMap_cons, hm]]
      exact experienceLoop_durations rest (some line) acc hlt
    | some dur =>
      rw [experienceLoop_cons_some prev line rest acc dur hm,
        show (line :: rest).filterMap findDateMatch =
            dur :: rest.filterMap findDateMatch from
          by simp [List.filterMap_cons, hm]]
      by_cases hb : 3 ≤ (mkExperienceEntry prev line dur :: acc).length
      · rw [if_pos hb]
        simp only [List.length_cons] at hb
        have h1 : 3 - acc.length = 1 := by omega
        rw [h1, List.reverse_cons, List.map_append, List.take_succ_cons,
          List.take_zero]
        simp [mkExperienceEntry_duration]
      · rw [if_neg hb]
        simp only [List.length_cons] at hb
        have hlen : (mkExperienceEntry prev line dur :: acc).length < 3 := by
          simp only [List.length_cons]
          omega
        rw [experienceLoop_durations rest (some line) _ hlen]
        simp only [List.length_cons, List.reverse_cons, List.map_append]
        have h2 : 3 - acc.length = (3 - (acc.length + 1)) + 1 := by omega
        rw [h2, List.take_succ_cons, List.append_assoc]
        simp [mkExperienceEntry_duration]

theorem extractExperience_durations (lines : List Str) :
    (extractExperience lines).map (fun e => e.duration) =
      (lines.filterMap findDateMatch).take 3 := by
  have h := experienceLoop_durations lines none [] (by decide)
  simpa [extractExperience] using h

theorem experienceLoop_positions :
    ∀ (lines : List Str) (prev : Option Str) (acc : List ExperienceEntry),
      (∀ e ∈ acc, e.position = unknownPosition) →
      ∀ e ∈ experienceLoop prev lines acc, e.position = unknownPosition
  | [], prev, acc, hacc => by
    intro e he
    rw [experienceLoop_nil, List.mem_reverse] at he
    exact hacc e he
  | line :: rest, prev, acc, hacc => by
    intro e he
    cases hm : findDateMatch line with
    | none =>
      rw [experienceLoop_cons_none prev line rest acc hm] at he
      exact experienceLoop_positions rest (some line) acc hacc e he
    | some dur =>
      rw [experienceLoop_cons_some prev line rest acc dur hm] at he
      by_cases hb : 3 ≤ (mkExperienceEntry prev line dur :: acc).length
      · rw [if_pos hb, List.mem_reverse] at he
        rcases List.mem_cons.mp he with rfl | hmem
        · exact mkExperienceEntry_position prev line dur
        · exact hacc e hmem
      · rw [if_neg hb] at he
        refine experienceLoop_positions rest (some line) _ ?_ e he
        intro e' he'
        rcases List.mem_cons.mp he' with rfl | hmem
        · exact mkExperienceEntry_position prev line dur
        · exact hacc e' hmem

/-- Claim C7 (confirmed): the regex experience extraction returns at most
three entries; the list of their duration fields is exactly the first three
date-range matches of the source lines, in source-line order; every entry
has the sentinel position Unknown Position; and every duration is the
literal matched substring of some source line. -/
theorem c7_experience :
    ∀ t : Str,
      (extractWithRegex t).experience.length ≤ 3 ∧
      (extractWithRegex t).experience.map (fun e => e.duration) =
        ((splitLines t).filterMap findDateMatch).take 3 ∧
      (∀ e ∈ (extractWithRegex t).experience, e.position = unknownPosition) ∧
      (∀ e ∈ (extractWithRegex t).experience,
        ∃ l ∈ splitLines t, findDateMatch l = some e.duration ∧
          ∃ pre post, pre ++ e.duration ++ post = l) := by
  intro t
  rw [extractWithRegex_experience]
  have hdur := extractExperience_durations (splitLines t)
  refine ⟨?_, hdur, ?_, ?_⟩
  · have hlen : (extractExperience (splitLines t)).length =
        ((extractExperience (splitLines t)).map (fun e => e.duration)).length :=
      (List.length_map _ _).symm
    rw [hlen, hdur]
    exact List.length_take_le 3 _
  · exact experienceLoop_positions (splitLines t) none []
      (fun e he => absurd he (List.not_mem_nil e))
  · intro e he
    have hd : e.duration ∈ (extractExperience (splitLines t)).map (fun e => e.duration) :=
      List.mem_map_of_mem _ he
    rw [hdur] at hd
    obtain ⟨l, hl, hfm⟩ := List.mem_filterMap.mp (List.take_subset 3 _ hd)
    obtain ⟨pre, post, hpp⟩ := findDateMatch_substring l e.duration hfm
    exact ⟨l, hl, hfm, pre, post, hpp⟩

/-- The resume text of the experience test in the repository test suite. -/
def experienceSample : Str :=
  ("Jane Doe\n\nExperience\n\n2018 - 2020\nJunior Developer at Startup Inc\n"
    ++ "Worked on frontend.\n\n2020 - Present\nSenior Developer at Tech Corp\n"
    ++ "Leading the team.").data

/-- Claim C7, witness: on the test-suite resume text the extracted
durations are the two literal date ranges in source order, and the
sentinel-position clause of the theorem is discharged on that text. -/
theorem c7_experience_witness :
    (extractWithRegex experienceSample).experience.map (fun e => e.duration)
      = ["2018 - 2020".data, "2020 - Present".data]
    ∧ (∀ e ∈ (extractWithRegex experienceSample).experience,
        e.position = unknownPosition) := by
  constructor
  · rw [(c7_experience experienceSample).2.1]
    decide
  · exact (c7_experience experienceSample).2.2.1

/-- Claim C8 (confirmed): when both provider attempts come back empty
(adapter unconfigured, or every model variant of the call failed),
parseResume returns exactly the regex engine output on the cleaned text
together with its bounded preview, under either preference order; this is
not the safe-default fallback result, whose confidence 30 lies below the
regex engine minimum of 50. -/
theorem c8_provider_exhaustion :
    ∀ (preferOpenAI : Bool) (raw : Str),
      parseResumeSuccess preferOpenAI none none raw =
        { textPreview := (cleanText raw).take 2000
        , extracted := .regex (extractWithRegex (cleanText raw)) } ∧
      (extractWithRegex (cleanText raw)).confidence ≠ safeDefaultResult.confidence := by
  intro pref raw
  constructor
  · cases pref <;> rfl
  · have h := extractWithRegex_confidence_bounds (cleanText raw)
    have h30 : safeDefaultResult.confidence = 30 := rfl
    rw [h30]
    omega

/-- Claim C9 (confirmed): an error message recognized as none of the typed
failures (unsupported format, file not found, empty document, PDF or DOCX
parse failure) makes parseResume return the safe-default result with the
bachelor education level, fieldOfStudy General, country International,
empty skills and experience, confidence 30, the fallback marker set and an
empty text preview; an error is surfaced to the caller only for a
recognized typed failure. -/
theorem c9_unclassified_failure :
    ∀ msg : Str,
      (recognizedFailure msg = false → handleParseError msg = .ok safeDefaultResult) ∧
      (∀ e : Str, handleParseError msg = .error e → recognizedFailure msg = true) ∧
      safeDefaultResult.educationLevel = bachelorsLabel ∧
      safeDefaultResult.fieldOfStudy = ["General".data] ∧
      safeDefaultResult.country = "International".data ∧
      safeDefaultResult.skills = [] ∧
      safeDefaultResult.experience = [] ∧
      safeDefaultResult.confidence = 30 ∧
      safeDefaultResult.fallbackFlag = true ∧
      safeDefaultResult.text = [] := by
  intro msg
  have hok : recognizedFailure msg = false →
      handleParseError msg = .ok safeDefaultResult := by
    intro h
    unfold recognizedFailure at h
    simp only [Bool.or_eq_false_iff] at h
    obtain ⟨⟨⟨⟨h1, h2⟩, h3, h4⟩, h5⟩, h6⟩ := h
    unfold handleParseError
    simp [h1, h2, h3, h4, h5, h6]
  refine ⟨hok, ?_, rfl, rfl, rfl, rfl, rfl, rfl, rfl, rfl⟩
  intro e herr
  by_cases h : recognizedFailure msg = true
  · exact h
  · rw [Bool.not_eq_true] at h
    rw [hok h] at herr
    exact Except.noConfusion herr

/-- Claim C9, witness: the theorem applied at a concrete unclassified error
message, which the handler converts into the safe-default result. -/
theorem c9_unclassified_failure_witness :
    recognizedFailure "Totally unexpected crash".data = false
    ∧ handleParseError "Totally unexpected crash".data = .ok safeDefaultResult :=
  ⟨by decide,
   (c9_unclassified_failure "Totally unexpected crash".data).1 (by decide)⟩

theorem mem_collapseWsAux :
    ∀ (b : Bool) (s : Str) (c : Char), c ∈ collapseWsAux b s →
      c = ' ' ∨ (c ∈ s ∧ isSpaceChar c = false)
  | _, [], c, h => absurd h (List.not_mem_nil c)
  | b, a :: rest, c, h => by
    unfold collapseWsAux at h
    split at h
    next ha =>
      split at h
      next hb =>
        rcases mem_collapseWsAux true rest c h with h1 | ⟨h2, h3⟩
        · exact Or.inl h1
        · exact Or.inr ⟨List.mem_cons_of_mem _ h2, h3⟩
      next hb =>
        rcases List.mem_cons.mp h with rfl | h'
        · exact Or.inl rfl
        · rcases mem_collapseWsAux true rest c h' with h1 | ⟨h2, h3⟩
          · exact Or.inl h1
          · exact Or.inr ⟨List.mem_cons_of_mem _ h2, h3⟩
    next ha =>
      rcases List.mem_cons.mp h with rfl | h'
      · exact Or.inr ⟨List.mem_cons_self _ _, by simpa using ha⟩
      · rcases mem_collapseWsAux false rest c h' with h1 | ⟨h2, h3⟩
        · exact Or.inl h1
        · exact Or.inr ⟨List.mem_cons_of_mem _ h2, h3⟩

theorem newline_not_mem_collapseWs (s : Str) : Char.ofNat 10 ∉ collapseWs s := by
  intro h
  rcases mem_collapseWsAux false s (Char.ofNat 10) h with h1 | ⟨_, h3⟩
  · exact absurd h1 (by decide)
  · exact absurd h3 (by decide)

theorem mem_trimStr {c : Char} {s : Str} (h : c ∈ trimStr s) : c ∈ s := by
  unfold trimStr at h
  rw [List.mem_reverse] at h
  have h1 := (List.dropWhile_sublist (l := (s.dropWhile isSpaceChar).reverse)
    (p := isSpaceChar)).subset h
  rw [List.mem_reverse] at h1
  exact (List.dropWhile_sublist (l := s) (p := isSpaceChar)).subset h1

theorem splitLines_of_no_newline :
    ∀ s : Str, Char.ofNat 10 ∉ s → splitLines s = [s]
  | [], _ => rfl
  | c :: rest, h => by
    have hc : ¬ c = Char.ofNat 10 := by
      intro hceq
      subst hceq
      exact h (List.mem_cons_self _ _)
    have hrest : Char.ofNat 10 ∉ rest := fun hr => h (List.mem_cons_of_mem c hr)
    unfold splitLines
    rw [if_neg (by simpa using hc)]
    rw [splitLines_of_no_newline rest hrest]

theorem extractExperience_singleton (l : Str) :
    (extractExperience [l]).length ≤ 1 := by
  unfold extractExperience
  cases hm : findDateMatch l with
  | none =>
    rw [experienceLoop_cons_none none l [] [] hm]
    simp [experienceLoop_nil]
  | some dur =>
    rw [experienceLoop_cons_some none l [] [] dur hm]
    simp [experienceLoop_nil]

/-- Claim C10 (confirmed): the cleanup step of parseResume replaces every
whitespace run, newlines included, by a single space, so the cleaned text
contains no newline, the line split of the regex engine yields the single
cleaned line, and the experience list produced on the pipeline regex path
has length at most one. -/
theorem c10_pipeline_single_line :
    ∀ t : Str,
      Char.ofNat 10 ∉ cleanText t ∧
      splitLines (cleanText t) = [cleanText t] ∧
      (extractWithRegex (cleanText t)).experience.length ≤ 1 := by
  intro t
  have h1 : Char.ofNat 10 ∉ cleanText t := by
    intro hmem
    exact newline_not_mem_collapseWs t (mem_trimStr hmem)
  have h2 := splitLines_of_no_newline (cleanText t) h1
  refine ⟨h1, h2, ?_⟩
  rw [extractWithRegex_experience, h2]
  exact extractExperience_singleton (cleanText t)

end ScholarHunt

